import Mathlib

/-!
# Verification of the NEO container codec

Shallow embedding of the NEO container format implementation (`neo.go` and the
xor-stream source file) and proofs about it.  Byte strings are modelled as
`List Nat` with values in `[0, 256)`; Go's `uint` is modelled as `Nat`, with the
64-bit wrap of the `uint → int` conversion made explicit where the source
performs it.  Fallible Go functions that return an `error` are modelled with an
explicit result type that also distinguishes runtime panics from returned
errors, since the source contains both failure modes.
-/

set_option maxRecDepth 60000

namespace NEO

/-- The error values declared in the source (`ErrCRCCheckFailed`,
`ErrNotNEOHeader`, `ErrBadVersion`, `ErrUnknownCryptoMethod`), plus `eof`
standing for the `io.EOF` error produced by the wrapped `bufio.Reader`. -/
inductive NeoError : Type
  | crcCheckFailed
  | notNEOHeader
  | badVersion
  | unknownCryptoMethod
  | eof
deriving DecidableEq

/-- Result of a Go call that either returns a value, returns an error value, or
panics at runtime.  A panic aborts the program, so no program state is carried
with it. -/
inductive GoResult (α : Type) : Type
  | ok (a : α)
  | err (e : NeoError)
  | panicked (msg : String)
deriving DecidableEq

/-- Whether a `GoResult` is a successful return. -/
def GoResult.isOk {α : Type} : GoResult α → Bool
  | .ok _ => true
  | _ => false

/-- The 4-byte magic number `{0xFF, 0x4E, 0x45, 0x4F}` (`NeoMagicNumber`). -/
def NeoMagicNumber : List Nat := [0xFF, 0x4E, 0x45, 0x4F]

/-- Go's `uint → int` conversion on a 64-bit platform: the 64-bit pattern is
reinterpreted as a signed value, so `u ≥ 2^63` becomes `u - 2^64 < 0`.
`encodeVUint` performs this conversion in its loop bound (`int(u)/0xFF`). -/
def uintToInt (u : Nat) : Int :=
  if u < 2 ^ 63 then (u : Int) else (u : Int) - 2 ^ 64

/-- `encodeVUint`: the loop `for i := 0; i < int(u)/0xFF; i++` appends the
sentinel byte `0xFF` once per iteration — `max 0 (int(u)/255)` times, with
`int(u)` the wrapped conversion and `/` Go's truncated division (`Int.tdiv`) —
and then one terminal byte `byte(u % 0xFF)`. -/
def encodeVUint (u : Nat) : List Nat :=
  List.replicate (Int.toNat (Int.tdiv (uintToInt u) 255)) 0xFF ++ [u % 0xFF]

/-- `decodeVUint`: add `0xFF` for every leading sentinel byte, add the first
non-sentinel byte and return the bytes after it as the surplus; an input with
no terminal byte (all sentinels, or empty) yields a `nil` surplus.  The Go
accumulator is a `uint`; its 64-bit wrap is not modelled because reaching it
would need an input slice of at least `2^64/255` bytes, beyond any allocatable
Go slice. -/
def decodeVUint : List Nat → Nat × List Nat
  | [] => (0, [])
  | b :: rest =>
    if b = 0xFF then ((decodeVUint rest).1 + 0xFF, (decodeVUint rest).2)
    else (b, rest)

/-- The `XorStream` cipher state: a byte-position counter `idx` and the key. -/
structure XorStream : Type where
  idx : Nat
  key : List Nat
deriving DecidableEq

/-- `NewXorStream` starts the counter at the zero value of `uint`. -/
def NewXorStream (key : List Nat) : XorStream := ⟨0, key⟩

/-- `XORKeyStream`: empty sources return immediately; otherwise every source
byte is XORed with `key[idx % len(key)]`.  The loop body never updates `idx`,
so each byte uses the same key byte and the state is returned unchanged —
exactly as in the source, whose `for i, v := range src` loop reads `s.idx` but
never increments it.  (With an empty key and nonempty source Go would panic on
`idx % 0`; this total model is only ever applied to nonempty keys, and all
theorems about it assume a nonempty key.)  The destination buffer is assumed to
be exactly the source's length, as at every call site in the source. -/
def XorStream.XORKeyStream (s : XorStream) (src : List Nat) : List Nat × XorStream :=
  if src = [] then ([], s)
  else (src.map (fun v => v ^^^ s.key.getD (s.idx % s.key.length) 0), s)

/-- The `NeoHeader` record.  `OriginalFilename` is a Go `string`; it is
modelled by its UTF-8 bytes, since `string ↔ []byte` conversions in the source
are byte-for-byte. -/
structure NeoHeader : Type where
  Version : Nat
  OriginalHeaderEncMethod : Nat
  OriginalHeader : List Nat
  OriginalFilenameEncMethod : Nat
  OriginalFilename : List Nat
  Crc32 : Nat
deriving DecidableEq

/-- The zero value `new(NeoHeader)` that `UnMarshall` starts filling in. -/
def zeroHeader : NeoHeader := ⟨0, 0, [], 0, [], 0⟩

/-- `binary.BigEndian.PutUint32`: the four big-endian bytes of a `uint32`. -/
def putUint32 (c : Nat) : List Nat :=
  [c / 2 ^ 24 % 256, c / 2 ^ 16 % 256, c / 2 ^ 8 % 256, c % 256]

/-- `binary.BigEndian.Uint32` on (at least) four bytes. -/
def beUint32 (l : List Nat) : Nat :=
  l.getD 0 0 * 2 ^ 24 + l.getD 1 0 * 2 ^ 16 + l.getD 2 0 * 2 ^ 8 + l.getD 3 0

/-- `writeContentWithXorEnc`: method tag `XorEnc = 1`, varint key length, raw
key bytes, varint content length, then the content obfuscated with a fresh
`XorStream` over the key. -/
def writeContentWithXorEnc (content key : List Nat) : List Nat :=
  [1] ++ encodeVUint key.length ++ key ++ encodeVUint content.length ++
    ((NewXorStream key).XORKeyStream content).1

/-- `loadContextWithXorEnc`: read varint key length, the key, varint content
length, the ciphertext, and de-obfuscate with a fresh `XorStream`.  The Go
re-slicings `surplus[:keyLen]` / `surplus[:contentLen]` panic when the declared
length exceeds the residual slice, which the guards model. -/
def loadContextWithXorEnc (p : List Nat) : GoResult (List Nat × List Nat) :=
  let d1 := decodeVUint p
  if d1.1 > d1.2.length then .panicked "slice bounds out of range"
  else
    let key := d1.2.take d1.1
    let s2 := d1.2.drop d1.1
    let d2 := decodeVUint s2
    if d2.1 > d2.2.length then .panicked "slice bounds out of range"
    else
      .ok (((NewXorStream key).XORKeyStream (d2.2.take d2.1)).1, d2.2.drop d2.1)

/-- The body that `NeoHeader.Marshall` accumulates in its `bytes.Buffer` before
prefixing magic and length: flags byte (`version & 0b1111`), the two obfuscated
blocks, and the big-endian CRC-32.  The two fresh 4-byte random keys drawn from
`crypto/rand` are passed in as parameters `key1`, `key2`. -/
def marshallBody (h : NeoHeader) (key1 key2 : List Nat) : List Nat :=
  [h.Version &&& 15] ++ writeContentWithXorEnc h.OriginalHeader key1 ++
    writeContentWithXorEnc h.OriginalFilename key2 ++ putUint32 h.Crc32

/-- `NeoHeader.Marshall`: fails with `ErrBadVersion` unless `Version = 1` and
with `ErrUnknownCryptoMethod` unless both method tags are `XorEnc = 1`;
otherwise produces magic number, varint length of the body, then the body. -/
def NeoHeader.Marshall (h : NeoHeader) (key1 key2 : List Nat) : GoResult (List Nat) :=
  if h.Version ≠ 1 then .err .badVersion
  else if h.OriginalHeaderEncMethod ≠ 1 then .err .unknownCryptoMethod
  else if h.OriginalFilenameEncMethod ≠ 1 then .err .unknownCryptoMethod
  else
    let body := marshallBody h key1 key2
    .ok (NeoMagicNumber ++ encodeVUint body.length ++ body)

/-- Result of `NeoHeader.UnMarshall`.  The Go method mutates its receiver in
place and returns an `error`; an error return therefore leaves the caller with
the partially filled header, carried here by `err`.  `panicked` captures the
explicit `panic("len not equal")` and the slice/index panics the parse can hit
on malformed input. -/
inductive UMRes : Type
  | ok (h : NeoHeader)
  | err (e : NeoError) (sofar : NeoHeader)
  | panicked (msg : String)
deriving DecidableEq

/-- Whether an `UMRes` is an error return (as opposed to success or a panic). -/
def UMRes.isErr : UMRes → Bool
  | .err _ _ => true
  | _ => false

/-- `NeoHeader.UnMarshall`: inputs of at most 4 bytes are `ErrNotNEOHeader`;
the varint after the (skipped, unchecked) first 4 bytes must equal the residual
length or the function panics with `"len not equal"`; then flags byte (version
in the low 4 bits), the two obfuscated blocks, and 4 bytes of big-endian
CRC-32 are read in order, failing with `ErrBadVersion` / `ErrUnknownCryptoMethod`
exactly where the source does. -/
def NeoHeader.UnMarshall (p : List Nat) : UMRes :=
  if p.length ≤ 4 then .err .notNEOHeader zeroHeader
  else
    let d := decodeVUint (p.drop 4)
    if d.2.length ≠ d.1 then .panicked "len not equal"
    else
      match d.2 with
      | [] => .panicked "index out of range"
      | flag :: p2 =>
        let h1 : NeoHeader := { zeroHeader with Version := flag &&& 15 }
        if flag &&& 15 ≠ 1 then .err .badVersion h1
        else
          match p2 with
          | [] => .panicked "index out of range"
          | m1 :: p3 =>
            let h2 : NeoHeader := { h1 with OriginalHeaderEncMethod := m1 }
            if m1 = 1 then
              match loadContextWithXorEnc p3 with
              | .panicked msg => .panicked msg
              | .err e => .err e h2
              | .ok (oh, p4) =>
                let h3 : NeoHeader := { h2 with OriginalHeader := oh }
                match p4 with
                | [] => .panicked "index out of range"
                | m2 :: p5 =>
                  let h4 : NeoHeader := { h3 with OriginalFilenameEncMethod := m2 }
                  if m2 = 1 then
                    match loadContextWithXorEnc p5 with
                    | .panicked msg => .panicked msg
                    | .err e => .err e h4
                    | .ok (fn, p6) =>
                      let h5 : NeoHeader := { h4 with OriginalFilename := fn }
                      if p6.length < 4 then .panicked "slice bounds out of range"
                      else .ok { h5 with Crc32 := beUint32 (p6.take 4) }
                  else .err .unknownCryptoMethod h4
            else .err .unknownCryptoMethod h2

/-- The `NeoWriter` state: configured leading-byte count, the header template
built by `NewNeoWriter` (whose `OriginalHeader` is filled at flush time), the
accumulation `bytes.Buffer`, the header-flushed flag, and the bytes written so
far to the wrapped sink `w` (modelled as an in-memory byte list). -/
structure NeoWriter : Type where
  originHdrLen : Nat
  hdr : NeoHeader
  buf : List Nat
  isNewHdrWritten : Bool
  out : List Nat
deriving DecidableEq

/-- `NewNeoWriter`: version 1, both methods `XorEnc`, empty leading bytes,
the given filename and CRC-32, an empty buffer, header not yet written. -/
def NewNeoWriter (hdrLen : Nat) (filename : List Nat) (crc32v : Nat) : NeoWriter :=
  ⟨hdrLen, ⟨1, 1, [], 1, filename, crc32v⟩, [], false, []⟩

/-- `NeoWriter.Write`.  After the header is flushed, chunks pass straight
through.  While the buffer is below the leading-byte count, a chunk of at most
`originHdrLen` bytes (the source compares against `originHdrLen`, not against
the remaining buffer capacity) is buffered whole; a larger chunk contributes
its first `originHdrLen` bytes to the buffer.  Otherwise the header — with
`OriginalHeader` set to the whole buffer — is marshalled (using the two 4-byte
random keys, passed as parameters) and written, the flag is set, and
`p[originHdrLen:]` is forwarded; that re-slice panics when `originHdrLen`
exceeds the chunk length. -/
def NeoWriter.Write (w : NeoWriter) (key1 key2 p : List Nat) :
    GoResult (Nat × NeoWriter) :=
  if w.isNewHdrWritten then .ok (p.length, { w with out := w.out ++ p })
  else if w.buf.length < w.originHdrLen ∧ p.length ≤ w.originHdrLen then
    .ok (p.length, { w with buf := w.buf ++ p })
  else
    let buf1 := if w.buf.length < w.originHdrLen
      then w.buf ++ p.take w.originHdrLen else w.buf
    let h : NeoHeader := { w.hdr with OriginalHeader := buf1 }
    match h.Marshall key1 key2 with
    | .err e => .err e
    | .panicked msg => .panicked msg
    | .ok hdrBytes =>
      let w1 : NeoWriter :=
        { w with buf := buf1, hdr := h, out := w.out ++ hdrBytes,
                 isNewHdrWritten := true }
      if w.originHdrLen > p.length then .panicked "slice bounds out of range"
      else .ok ((p.drop w.originHdrLen).length + w.originHdrLen,
                { w1 with out := w1.out ++ p.drop w.originHdrLen })

/-- Feed a sequence of chunks to a `NeoWriter`, stopping at the first error or
panic (a panic would abort the caller). -/
def writeChunks (w : NeoWriter) (key1 key2 : List Nat) :
    List (List Nat) → GoResult NeoWriter
  | [] => .ok w
  | c :: cs =>
    match w.Write key1 key2 c with
    | .ok (_, w1) => writeChunks w1 key1 key2 cs
    | .err e => .err e
    | .panicked msg => .panicked msg

/-- Split a payload into consecutive 1-byte chunks. -/
def singles (l : List Nat) : List (List Nat) := l.map (fun b => [b])

/-- Go's `copy(dst, src)`: overwrite the first `min |dst| |src|` positions of
`dst` with `src`, leaving the rest of `dst` unchanged. -/
def listCopy (dst src : List Nat) : List Nat :=
  src.take dst.length ++ dst.drop (min dst.length src.length)

/-- The byte-at-a-time varint loop of `NeoReader.Read`: pop bytes with
`ReadByte`, adding each to `hdrLen` and counting them in `n_`, until a
non-sentinel byte is seen; `none` models `ReadByte` returning `io.EOF` before
a terminal byte.  Returns `(hdrLen, n_, remaining source)`. -/
def readVarint : List Nat → Option (Nat × Nat × List Nat)
  | [] => none
  | b :: rest =>
    if b ≠ 0xFF then some (b, 1, rest)
    else
      match readVarint rest with
      | none => none
      | some (len, cnt, s) => some (0xFF + len, cnt + 1, s)

/-- The `NeoReader` state: replay cursor `n`, the remaining bytes of the
buffered source (`bufio.Reader` over a fully available in-memory stream, so a
`Read` of `k` bytes delivers `min k avail` bytes and errors with `io.EOF`
only when nothing is left), the lazily parsed header (the source field is also
named `NeoHeader`), and the 1024-byte scratch buffer `buf`. -/
structure NeoReader : Type where
  n : Nat
  src : List Nat
  header : Option NeoHeader
  buf : List Nat
deriving DecidableEq

/-- `NewNeoReader`: cursor 0, no header yet, zeroed 1024-byte scratch buffer. -/
def NewNeoReader (src : List Nat) : NeoReader := ⟨0, src, none, List.replicate 1024 0⟩

/-- Result of `NeoReader.Read`: a normal Go return carries the byte count, the
caller's buffer after the call (a `Read` writes into the buffer it is handed),
the updated reader, and the returned `error` (`none` for `nil`); `panicked`
captures runtime panics. -/
inductive ReadRes : Type
  | ret (n : Nat) (p : List Nat) (r : NeoReader) (e : Option NeoError)
  | panicked (msg : String)
deriving DecidableEq

/-- The byte count of a normal `Read` return. -/
def ReadRes.count : ReadRes → Option Nat
  | .ret n _ _ _ => some n
  | .panicked _ => none

/-- The error value of a normal `Read` return. -/
def ReadRes.errOf : ReadRes → Option (Option NeoError)
  | .ret _ _ _ e => some e
  | .panicked _ => none

/-- The bytes a normal `Read` return delivers to the caller: the first `n`
bytes of the caller's buffer. -/
def ReadRes.delivered : ReadRes → Option (List Nat)
  | .ret n p _ _ => some (p.take n)
  | .panicked _ => none

/-- The reader state after a normal `Read` return. -/
def ReadRes.reader : ReadRes → Option NeoReader
  | .ret _ _ r _ => some r
  | .panicked _ => none

/-- `NeoReader.Read`, fuelled.  The source function recurses (after a header
parse, and to continue past the replay of the embedded leading bytes); the
fuel only bounds that recursion depth and `NeoReader.Read` below supplies more
than the source can consume, so the `"out of fuel"` branch is unreachable.

The branches mirror the source line by line:
* an empty caller buffer returns immediately;
* with a parsed header and an unexhausted replay cursor, `copy(p, OriginalHeader[r.n:])`
  fills the front of `p`, the cursor advances by the copied count, and the
  call recurses on the re-slice `p[r.n:]` — the *updated* cursor, so the
  re-slice panics whenever the updated cursor exceeds `len(p)`;
* with a parsed header and an exhausted cursor, the call forwards to the
  buffered source;
* with no header yet: read 4 bytes into `buf[:4]` (an `io.EOF` here is turned
  into a `(0, nil)` return), compare with the magic number, read the varint
  byte-by-byte, size the header buffer — `buf[:4+n_+hdrLen]` when it fits the
  scratch buffer, else a fresh zeroed buffer of `4 + n + hdrLen` bytes where
  `n` is the still-zero named return value rather than the varint byte count
  `n_` — refill magic and varint, read the remaining header bytes from the
  source into `hdr[4+n_:]`, and parse; a parse error is swallowed into a
  `(0, nil)` return with the partially filled header retained, while success
  recurses to begin replay. -/
def NeoReader.ReadCore : Nat → NeoReader → List Nat → ReadRes
  | 0, _, _ => .panicked "out of fuel"
  | fuel + 1, r, p =>
    if p.length = 0 then .ret 0 p r none
    else
      match r.header with
      | some hdr =>
        if r.n < hdr.OriginalHeader.length then
          let cnt := min p.length (hdr.OriginalHeader.length - r.n)
          let p1 := listCopy p (hdr.OriginalHeader.drop r.n)
          let n1 := r.n + cnt
          if n1 > p.length then .panicked "slice bounds out of range"
          else
            match NeoReader.ReadCore fuel { r with n := n1 } (p1.drop n1) with
            | .ret n2 psub r2 e2 => .ret (n2 + cnt) (p1.take n1 ++ psub) r2 e2
            | .panicked msg => .panicked msg
        else
          if r.src = [] then .ret 0 p r (some .eof)
          else
            let m := min p.length r.src.length
            .ret m (listCopy p r.src) { r with src := r.src.drop m } none
      | none =>
        if r.src = [] then .ret 0 p r none
        else
          let buf1 := r.src.take 4 ++ r.buf.drop (min 4 r.src.length)
          let src1 := r.src.drop 4
          if buf1.take 4 ≠ NeoMagicNumber then
            .ret 0 p { r with src := src1, buf := buf1 } (some .notNEOHeader)
          else
            match readVarint src1 with
            | none => .ret 0 p { r with src := [], buf := buf1 } (some .eof)
            | some (hdrLen, nv, src2) =>
              let fits := buf1.length ≥ 4 + nv + hdrLen
              let base := if fits then buf1.take (4 + nv + hdrLen)
                          else List.replicate (4 + 0 + hdrLen) 0
              let h1 := NeoMagicNumber ++ base.drop 4
              let ev := encodeVUint hdrLen
              let h2 := h1.take 4 ++ ev.take (h1.length - 4) ++
                        h1.drop (4 + min (h1.length - 4) ev.length)
              if 4 + nv > h2.length then .panicked "slice bounds out of range"
              else
                let req := h2.length - (4 + nv)
                if req > 0 ∧ src2 = [] then
                  .ret 0 p { r with src := [], buf := buf1 } (some .eof)
                else
                  let got := min req src2.length
                  let h3 := h2.take (4 + nv) ++ src2.take req ++
                            h2.drop (4 + nv + got)
                  let src3 := src2.drop got
                  let bufF := if fits then h3 ++ buf1.drop (4 + nv + hdrLen)
                              else buf1
                  match NeoHeader.UnMarshall h3 with
                  | .panicked msg => .panicked msg
                  | .err _ sofar =>
                    .ret 0 p { r with src := src3, header := some sofar, buf := bufF } none
                  | .ok hOk =>
                    NeoReader.ReadCore fuel
                      { r with src := src3, header := some hOk, buf := bufF } p

/-- `NeoReader.Read` with ample fuel: one level for the header parse, at most
one level per caller-buffer byte for the replay chain, and one terminal level. -/
def NeoReader.Read (r : NeoReader) (p : List Nat) : ReadRes :=
  NeoReader.ReadCore (p.length + 2) r p

/-! ### Concrete test vectors -/

/-- A 128-byte payload with distinct byte values. -/
def payload128 : List Nat := List.range 128

/-- A fixed 4-byte stand-in for the first random key drawn by `Marshall`. -/
def keyA : List Nat := [1, 2, 3, 4]

/-- A fixed 4-byte stand-in for the second random key drawn by `Marshall`. -/
def keyB : List Nat := [5, 6, 7, 8]

/-- The container produced by encoding `payload128` in a single `Write` call
through `NewNeoWriter` with leading-byte count 32, filename `"a"` and a fixed
stored checksum. -/
def c1Container : List Nat :=
  match (NewNeoWriter 32 [97] 0xDEADBEEF).Write keyA keyB payload128 with
  | .ok (_, w) => w.out
  | _ => []

/-- The decoder state after one 16-byte `Read` on `c1Container` (the replay of
the 32 embedded leading bytes is then only half consumed). -/
def c1ReaderAfterFirst : NeoReader :=
  match (NewNeoReader c1Container).Read (List.replicate 16 0) with
  | .ret _ _ r _ => r
  | .panicked _ => NewNeoReader []

/-- An input that does not start with the magic number. -/
def notMagicInput : List Nat := [1, 2, 3, 4, 5, 6]

/-- A well-framed input whose flags byte declares version 2: magic, varint
header length 1, flags byte `2`. -/
def badVersionInput : List Nat := NeoMagicNumber ++ [1, 2]

/-- A well-framed version-1 input whose first obfuscation method tag is the
unknown value 9: magic, varint header length 2, flags byte `1`, method `9`. -/
def badMethodInput : List Nat := NeoMagicNumber ++ [2, 1, 9]

/-- A 1000-byte leading-bytes field, large enough that the marshalled header
span exceeds the reader's 1024-byte scratch buffer. -/
def bigOriginalHeader : List Nat := (List.range 1000).map (fun i => i % 256)

/-- A header whose wire size (4 magic + 5 varint + 1022 body = 1031 bytes)
exceeds the decoder's 1024-byte scratch buffer. -/
def c8Header : NeoHeader := ⟨1, 1, bigOriginalHeader, 1, [], 0xCAFEBABE⟩

/-- The marshalled container for `c8Header`. -/
def c8Container : List Nat :=
  match c8Header.Marshall keyA keyB with
  | .ok bs => bs
  | _ => []

/-! ### Varint codec lemmas -/

/-- Decoding a run of `k` sentinel bytes followed by a terminal byte `v < 255`
sums the sentinels, adds `v`, and returns everything after `v`. -/
theorem decodeVUint_replicate_append (k v : Nat) (rest : List Nat) (hv : v < 0xFF) :
    decodeVUint (List.replicate k 0xFF ++ v :: rest) = (0xFF * k + v, rest) := by
  induction k with
  | zero => simp [decodeVUint, Nat.ne_of_lt hv]
  | succ m ih =>
    have hstep : decodeVUint (List.replicate (m + 1) 0xFF ++ v :: rest)
        = ((decodeVUint (List.replicate m 0xFF ++ v :: rest)).1 + 0xFF,
           (decodeVUint (List.replicate m 0xFF ++ v :: rest)).2) := by
      rw [List.replicate_succ, List.cons_append]
      simp [decodeVUint]
    rw [hstep, ih]
    simp only [Prod.mk.injEq]
    exact ⟨by ring, trivial⟩

/-- For `u` representable as a non-negative Go `int`, the sentinel loop of
`encodeVUint` runs exactly `u / 255` times. -/
theorem encodeVUint_eq_of_lt (u : Nat) (h : u < 2 ^ 63) :
    encodeVUint u = List.replicate (u / 0xFF) 0xFF ++ [u % 0xFF] := by
  unfold encodeVUint uintToInt
  rw [if_pos h]
  have ht : Int.tdiv (u : Int) 255 = ((u / 255 : Nat) : Int) := rfl
  rw [ht, Int.toNat_ofNat]

/-- Length of the varint encoding of `u < 2^63`. -/
theorem encodeVUint_length (u : Nat) (h : u < 2 ^ 63) :
    (encodeVUint u).length = u / 0xFF + 1 := by
  rw [encodeVUint_eq_of_lt u h]; simp

/-- Decoding a varint-encoded `u < 2^63` followed by arbitrary bytes recovers
`u` and the trailing bytes. -/
theorem decodeVUint_encodeVUint_append (u : Nat) (h : u < 2 ^ 63) (rest : List Nat) :
    decodeVUint (encodeVUint u ++ rest) = (u, rest) := by
  rw [encodeVUint_eq_of_lt u h, List.append_assoc, List.singleton_append,
    decodeVUint_replicate_append _ _ _ (Nat.mod_lt u (by norm_num)),
    Nat.div_add_mod]

/-! ### Cipher lemmas -/

/-- `XORKeyStream` output has the source's length. -/
theorem XORKeyStream_length (s : XorStream) (src : List Nat) :
    (s.XORKeyStream src).1.length = src.length := by
  unfold XorStream.XORKeyStream
  split <;> simp_all

/-- Applying the transform twice with freshly constructed streams over the same
key is the identity (each byte is XORed twice with the same key byte). -/
theorem XORKeyStream_involution (key src : List Nat) :
    ((NewXorStream key).XORKeyStream (((NewXorStream key).XORKeyStream src).1)).1 = src := by
  unfold XorStream.XORKeyStream NewXorStream
  cases src with
  | nil => simp
  | cons a l =>
    rw [if_neg (by simp)]
    simp only
    rw [if_neg (by simp)]
    simp [List.map_map, Function.comp_def, Nat.xor_cancel_right]

/-! ### Checksum byte lemmas -/

/-- `putUint32` always yields 4 bytes. -/
theorem putUint32_length (c : Nat) : (putUint32 c).length = 4 := rfl

/-- Big-endian 32-bit round-trip for any value fitting in a `uint32`. -/
theorem beUint32_putUint32 (c : Nat) (h : c < 2 ^ 32) :
    beUint32 (putUint32 c) = c := by
  show c / 2 ^ 24 % 256 * 2 ^ 24 + c / 2 ^ 16 % 256 * 2 ^ 16 +
    c / 2 ^ 8 % 256 * 2 ^ 8 + c % 256 = c
  omega

/-! ### Obfuscated-block round-trip -/

/-- Parsing the bytes that `writeContentWithXorEnc` appended after its method
tag (key-length varint, key, content-length varint, ciphertext) recovers the
original content and leaves any trailing bytes untouched. -/
theorem loadContext_writeContent (key content rest : List Nat)
    (hk : key.length < 2 ^ 63) (hc : content.length < 2 ^ 63) :
    loadContextWithXorEnc (encodeVUint key.length ++ key ++
      encodeVUint content.length ++ ((NewXorStream key).XORKeyStream content).1 ++ rest) =
      .ok (content, rest) := by
  have hcl := XORKeyStream_length (NewXorStream key) content
  have e1 := decodeVUint_encodeVUint_append key.length hk
    (key ++ (encodeVUint content.length ++
      (((NewXorStream key).XORKeyStream content).1 ++ rest)))
  have e2 := decodeVUint_encodeVUint_append content.length hc
    (((NewXorStream key).XORKeyStream content).1 ++ rest)
  unfold loadContextWithXorEnc
  simp only [List.append_assoc]
  rw [e1]
  simp only
  rw [if_neg (by simp), List.take_left, List.drop_left, e2]
  simp only
  rw [if_neg (by simp [hcl]), List.take_left' hcl, List.drop_left' hcl,
    XORKeyStream_involution]

/-- Length of an obfuscated block with a 4-byte key. -/
theorem writeContent_length (content key : List Nat) (hk : key.length = 4)
    (hc : content.length < 2 ^ 63) :
    (writeContentWithXorEnc content key).length
      = 7 + content.length / 0xFF + content.length := by
  have h1 : (encodeVUint 4).length = 1 := rfl
  have h2 := encodeVUint_length content.length hc
  have h3 := XORKeyStream_length (NewXorStream key) content
  simp only [writeContentWithXorEnc, List.length_append, h1, h2, h3, hk,
    List.length_singleton]
  omega

/-- Dropping the 4 magic bytes from a magic-prefixed byte string. -/
theorem magic_drop (X : List Nat) : (NeoMagicNumber ++ X).drop 4 = X := rfl

/-- `UnMarshall` on a well-formed serialized header, presented as magic,
varint length, flags byte `1`, a block for the leading bytes, a block for the
filename, and the big-endian checksum: parsing succeeds and recovers every
field. -/
theorem unmarshall_shape (oh fn key1 key2 : List Nat) (crc L : Nat)
    (hk1 : key1.length = 4) (hk2 : key2.length = 4) (hcrc : crc < 2 ^ 32)
    (hoh : oh.length < 2 ^ 63) (hfn : fn.length < 2 ^ 63) (hL : L < 2 ^ 63)
    (hLen : (1 :: (writeContentWithXorEnc oh key1 ++
      (writeContentWithXorEnc fn key2 ++ putUint32 crc))).length = L) :
    NeoHeader.UnMarshall (NeoMagicNumber ++ encodeVUint L ++
      (1 :: (writeContentWithXorEnc oh key1 ++
        (writeContentWithXorEnc fn key2 ++ putUint32 crc)))) =
    .ok ⟨1, 1, oh, 1, fn, crc⟩ := by
  have hk1' : key1.length < 2 ^ 63 := by rw [hk1]; norm_num
  have hk2' : key2.length < 2 ^ 63 := by rw [hk2]; norm_num
  unfold NeoHeader.UnMarshall
  rw [if_neg ?glen]
  case glen =>
    simp [NeoMagicNumber, encodeVUint, List.length_append]
  rw [List.append_assoc, magic_drop, decodeVUint_encodeVUint_append L hL]
  simp only [ne_eq]
  rw [if_neg (not_not_intro hLen), if_neg (by decide)]
  rw [show writeContentWithXorEnc oh key1 = 1 :: (encodeVUint key1.length ++
    (key1 ++ (encodeVUint oh.length ++ ((NewXorStream key1).XORKeyStream oh).1)))
    from by simp [writeContentWithXorEnc, List.append_assoc]]
  simp only [List.cons_append, List.append_assoc]
  rw [if_pos trivial]
  have l1 : loadContextWithXorEnc (encodeVUint key1.length ++ (key1 ++
      (encodeVUint oh.length ++ (((NewXorStream key1).XORKeyStream oh).1 ++
        (writeContentWithXorEnc fn key2 ++ putUint32 crc))))) =
      .ok (oh, writeContentWithXorEnc fn key2 ++ putUint32 crc) := by
    have := loadContext_writeContent key1 oh
      (writeContentWithXorEnc fn key2 ++ putUint32 crc) hk1' hoh
    simpa [List.append_assoc] using this
  rw [l1]
  rw [show writeContentWithXorEnc fn key2 = 1 :: (encodeVUint key2.length ++
    (key2 ++ (encodeVUint fn.length ++ ((NewXorStream key2).XORKeyStream fn).1)))
    from by simp [writeContentWithXorEnc, List.append_assoc]]
  simp only [List.cons_append, List.append_assoc]
  rw [if_pos trivial]
  have l2 : loadContextWithXorEnc (encodeVUint key2.length ++ (key2 ++
      (encodeVUint fn.length ++ (((NewXorStream key2).XORKeyStream fn).1 ++ putUint32 crc)))) =
      .ok (fn, putUint32 crc) := by
    have := loadContext_writeContent key2 fn (putUint32 crc) hk2' hfn
    simpa [List.append_assoc] using this
  rw [l2]
  simp [putUint32_length, beUint32_putUint32 crc hcrc,
    show List.take 4 (putUint32 crc) = putUint32 crc from rfl]

/-! ### Wire varint-loop, length-mismatch, and oversized-header lemmas -/

/-- The reader's byte-at-a-time varint loop on `k` sentinel bytes followed by a
terminal byte `v < 255` sums the bytes, counts `k + 1` of them, and leaves the
trailing bytes unread. -/
theorem readVarint_replicate_append (k v : Nat) (rest : List Nat) (hv : v < 0xFF) :
    readVarint (List.replicate k 0xFF ++ v :: rest) = some (0xFF * k + v, k + 1, rest) := by
  induction k with
  | zero => simp [readVarint, Nat.ne_of_lt hv]
  | succ m ih =>
    have hstep : readVarint (List.replicate (m + 1) 0xFF ++ v :: rest)
        = match readVarint (List.replicate m 0xFF ++ v :: rest) with
          | none => none
          | some (len, cnt, s) => some (0xFF + len, cnt + 1, s) := by
      rw [List.replicate_succ, List.cons_append]
      simp [readVarint]
    rw [hstep, ih]
    simp only [Option.some.injEq, Prod.mk.injEq]
    exact ⟨by ring, trivial⟩

/-- The varint loop on a varint-encoded `u < 2^63` reads back `u` in
`u / 255 + 1` bytes. -/
theorem readVarint_encodeVUint (u : Nat) (hu : u < 2 ^ 63) (rest : List Nat) :
    readVarint (encodeVUint u ++ rest) = some (u, u / 0xFF + 1, rest) := by
  rw [encodeVUint_eq_of_lt u hu, List.append_assoc, List.singleton_append,
    readVarint_replicate_append _ _ _ (Nat.mod_lt u (by norm_num)), Nat.div_add_mod]

/-- On any input longer than 4 bytes whose varint-declared header length
differs from the residual length, `UnMarshall` panics with `"len not equal"`
(the source's explicit `panic`) instead of returning an error value. -/
theorem unMarshall_len_mismatch (p : List Nat) (h4 : 4 < p.length)
    (hmm : (decodeVUint (p.drop 4)).2.length ≠ (decodeVUint (p.drop 4)).1) :
    NeoHeader.UnMarshall p = .panicked "len not equal" := by
  unfold NeoHeader.UnMarshall
  rw [if_neg (by omega), if_pos hmm]

/-- `bigOriginalHeader` has 1000 bytes. -/
theorem bigOriginalHeader_length : bigOriginalHeader.length = 1000 := by
  simp [bigOriginalHeader]

/-- The marshalled body of `c8Header`: 1 flags byte, a 1010-byte block for the
1000 leading bytes, a 7-byte block for the empty filename, 4 checksum bytes. -/
theorem c8Body_length :
    (marshallBody c8Header keyA keyB).length = 1022 := by
  have hb := bigOriginalHeader_length
  have w1 := writeContent_length bigOriginalHeader keyA (by rfl)
    (by rw [hb]; norm_num)
  have w2 := writeContent_length [] keyB (by rfl) (by simp)
  simp only [marshallBody, c8Header, List.length_append, w1, w2,
    putUint32_length, List.length_singleton, hb]
  norm_num

/-- Marshalling `c8Header` succeeds and produces magic, varint length, body. -/
theorem c8Marshall_eq :
    c8Header.Marshall keyA keyB = .ok (NeoMagicNumber ++
      encodeVUint (marshallBody c8Header keyA keyB).length ++
      marshallBody c8Header keyA keyB) := by
  simp [NeoHeader.Marshall, c8Header]

/-- The bytes of `c8Container`: magic, varint-encoded declared length 1022,
then the 1022-byte body. -/
theorem c8Container_eq :
    c8Container = NeoMagicNumber ++ encodeVUint 1022 ++
      marshallBody c8Header keyA keyB := by
  unfold c8Container
  rw [c8Marshall_eq, c8Body_length]

/-- `c8Container` spans `4 + 5 + 1022 = 1031` bytes, more than the reader's
1024-byte scratch buffer. -/
theorem c8Container_length : c8Container.length = 1031 := by
  have h5 : (encodeVUint 1022).length = 5 := by
    rw [encodeVUint_length 1022 (by norm_num)]
  rw [c8Container_eq]
  simp [List.length_append, h5, c8Body_length, NeoMagicNumber]

/-- The first `Read` on a fresh reader over `c8Container` (any non-empty
caller buffer, any fuel) takes the oversized-header path: the replacement
buffer is sized `4 + 0 + 1022` from the still-zero `n` instead of
`4 + 5 + 1022`, only `1022 - 5 = 1017` of the 1022 remaining header bytes are
read, and the parse panics in the length check. -/
theorem c8ReadCore (fuel : Nat) (p : List Nat) (hp : ¬ p.length = 0) :
    NeoReader.ReadCore (fuel + 1) (NewNeoReader c8Container) p
      = .panicked "len not equal" := by
  have hne : c8Container ≠ [] := by
    intro hx
    have hl := c8Container_length
    rw [hx] at hl
    simp at hl
  unfold NeoReader.ReadCore NewNeoReader
  rw [if_neg hp]
  simp only
  rw [if_neg hne]
  have hev5 : (encodeVUint 1022).length = 5 := by
    rw [encodeVUint_length 1022 (by norm_num)]
  have hct4 : List.take 4 c8Container = NeoMagicNumber := by
    rw [c8Container_eq, List.append_assoc]
    exact List.take_left' rfl
  have hmin4 : min 4 c8Container.length = 4 := by
    rw [c8Container_length]; decide
  have hdrep : List.drop 4 (List.replicate 1024 (0 : Nat)) = List.replicate 1020 0 := by
    simp
  have hdrop4 : List.drop 4 c8Container
      = encodeVUint 1022 ++ marshallBody c8Header keyA keyB := by
    rw [c8Container_eq, List.append_assoc]
    exact List.drop_left' rfl
  rw [hct4, hmin4, hdrep, hdrop4]
  rw [show List.take 4 (NeoMagicNumber ++ List.replicate 1020 (0 : Nat)) = NeoMagicNumber
    from List.take_left' rfl]
  rw [if_neg (by simp)]
  rw [readVarint_encodeVUint 1022 (by norm_num)]
  simp only [show (1022 : Nat) / 0xFF + 1 = 5 from by norm_num]
  have hfits : ((NeoMagicNumber ++ List.replicate 1020 (0 : Nat)).length ≥ 4 + 5 + 1022) = False := by
    simp [NeoMagicNumber]
  simp only [hfits, if_false]
  simp only [show (4 : Nat) + 0 + 1022 = 1026 from rfl]
  simp only [show List.drop 4 (List.replicate 1026 (0 : Nat)) = List.replicate 1022 0 from by simp]
  simp only [show (NeoMagicNumber ++ List.replicate 1022 (0 : Nat)).length = 1026 from by
    simp [NeoMagicNumber]]
  simp only [show (1026 : Nat) - 4 = 1022 from rfl]
  simp only [show List.take 4 (NeoMagicNumber ++ List.replicate 1022 (0 : Nat)) = NeoMagicNumber
    from List.take_left' rfl]
  simp only [show List.take 1022 (encodeVUint 1022) = encodeVUint 1022
    from List.take_of_length_le (by rw [hev5]; norm_num)]
  simp only [hev5]
  simp only [show min (1022 : Nat) 5 = 5 from by decide]
  simp only [show (4 : Nat) + 5 = 9 from rfl]
  simp only [show List.drop 9 (NeoMagicNumber ++ List.replicate 1022 (0 : Nat))
      = List.replicate 1017 0 from by simp [NeoMagicNumber]]
  simp only [show (NeoMagicNumber ++ encodeVUint 1022 ++ List.replicate 1017 (0 : Nat)).length
      = 1026 from by simp [NeoMagicNumber, hev5]]
  simp only [show ((9 : Nat) > 1026) = False from by norm_num, if_false]
  simp only [show (1026 : Nat) - 9 = 1017 from rfl]
  have hbne : marshallBody c8Header keyA keyB ≠ [] := by
    intro hx
    have hl := c8Body_length
    rw [hx] at hl
    simp at hl
  simp only [show ((1017 : Nat) > 0 ∧ marshallBody c8Header keyA keyB = []) = False from by
    simp [hbne], if_false]
  simp only [c8Body_length]
  simp only [show min (1017 : Nat) 1022 = 1017 from by decide]
  simp only [show List.take 9 (NeoMagicNumber ++ encodeVUint 1022 ++ List.replicate 1017 (0 : Nat))
      = NeoMagicNumber ++ encodeVUint 1022
    from List.take_left' (by simp [NeoMagicNumber, hev5])]
  simp only [show (9 : Nat) + 1017 = 1026 from rfl]
  simp only [show List.drop 1026 (NeoMagicNumber ++ encodeVUint 1022 ++ List.replicate 1017 (0 : Nat))
      = [] from List.drop_eq_nil_of_le (by simp [NeoMagicNumber, hev5])]
  simp only [List.append_nil]
  have hum : NeoHeader.UnMarshall ((NeoMagicNumber ++ encodeVUint 1022) ++
      List.take 1017 (marshallBody c8Header keyA keyB)) = .panicked "len not equal" := by
    apply unMarshall_len_mismatch
    · simp [NeoMagicNumber, hev5, List.length_take, c8Body_length]
    · rw [show ((NeoMagicNumber ++ encodeVUint 1022) ++
          List.take 1017 (marshallBody c8Header keyA keyB)).drop 4
          = encodeVUint 1022 ++ List.take 1017 (marshallBody c8Header keyA keyB) from by
        rw [List.append_assoc]
        exact List.drop_left' rfl]
      rw [decodeVUint_encodeVUint_append 1022 (by norm_num)]
      simp [List.length_take, c8Body_length]
  rw [hum]

/-! ### Claim theorems -/

/-- Claim C1: the streaming round-trip does NOT hold for every sequence of
positive read sizes — this theorem evaluates the code at the failing input.
Encoding the 128-byte payload through the streaming encoder succeeds, and a
single 256-byte read does recover the payload exactly; but reading the same
container with two 16-byte requests makes the second `Read` panic: the first
call leaves the replay cursor at 16, and the second call re-slices the 16-byte
caller buffer at the updated cursor 32 (`p[r.n:]` instead of `p[n:]`). -/
theorem c1_reader_split_replay_panics :
    ((NewNeoWriter 32 [97] 0xDEADBEEF).Write keyA keyB payload128).isOk = true
  ∧ ((NewNeoReader c1Container).Read (List.replicate 256 0)).delivered = some payload128
  ∧ ((NewNeoReader c1Container).Read (List.replicate 16 0)).count = some 16
  ∧ ((NewNeoReader c1Container).Read (List.replicate 16 0)).delivered
      = some (payload128.take 16)
  ∧ c1ReaderAfterFirst.n = 16
  ∧ c1ReaderAfterFirst.Read (List.replicate 16 0)
      = .panicked "slice bounds out of range" := by
  decide

/-- Claim C2: 1-byte writes are NOT equivalent to a single write — this
theorem evaluates the code at the failing input.  A single 128-byte `Write`
with leading-byte count 32 succeeds, but feeding the same payload one byte at
a time panics: the 33rd call reaches the flush branch with a 1-byte chunk and
evaluates `p[32:]` on it. -/
theorem c2_one_byte_writes_panic :
    ((NewNeoWriter 32 [97] 0xDEADBEEF).Write keyA keyB payload128).isOk = true
  ∧ writeChunks (NewNeoWriter 32 [97] 0xDEADBEEF) keyA keyB (singles payload128)
      = .panicked "slice bounds out of range" := by
  decide

/-- Claim C3: the position counter does NOT advance — this theorem evaluates
the code at the failing input.  With key `[0x00, 0x01]` and source
`[0x00, 0x00]`, output byte 1 is `0x00` (XORed with `key[0]`), not
`0x00 ^ key[1] = 0x01` as the claim requires, and the stream state after the
call is unchanged (`idx` still 0): the source's loop never increments `idx`. -/
theorem c3_xorstream_counter_never_advances :
    ((NewXorStream [0, 1]).XORKeyStream [0, 0]).1 = [0, 0]
  ∧ ((NewXorStream [0, 1]).XORKeyStream [0, 0]).2 = NewXorStream [0, 1] := by
  decide

/-- Claim C4 (amended): for every `uint` value representable as a non-negative
`int` — that is, `u < 2^63` — `encodeVUint u` is `⌊u/255⌋` sentinel bytes
`0xFF` followed by the terminal byte `u mod 255`, and decoding the encoding
returns `u` with an empty surplus.  (For `u ≥ 2^63` the loop bound `int(u)/0xFF`
is negative and the sentinel loop does not run; see the counterexample.) -/
theorem c4_encodeVUint_roundtrip (u : Nat) (h : u < 2 ^ 63) :
    encodeVUint u = List.replicate (u / 0xFF) 0xFF ++ [u % 0xFF]
  ∧ decodeVUint (encodeVUint u) = (u, []) := by
  refine ⟨encodeVUint_eq_of_lt u h, ?_⟩
  have h2 := decodeVUint_encodeVUint_append u h []
  simpa using h2

/-- Claim C4, witness: the round-trip at `u = 1000`. -/
theorem c4_encodeVUint_roundtrip_witness :
    encodeVUint 1000 = List.replicate (1000 / 0xFF) 0xFF ++ [1000 % 0xFF]
  ∧ decodeVUint (encodeVUint 1000) = (1000, []) :=
  c4_encodeVUint_roundtrip 1000 (by norm_num)

/-- Claim C4, counterexample: at `u = 2^63` the `uint → int` conversion in the
loop bound is negative, so `encodeVUint` emits no sentinel bytes at all — just
the single terminal byte `2^63 mod 255 = 128` — and the round-trip fails. -/
theorem c4_encodeVUint_overflow_cex :
    encodeVUint (2 ^ 63) = [128]
  ∧ decodeVUint (encodeVUint (2 ^ 63)) ≠ (2 ^ 63, []) := by
  decide

/-- Claim C5: for every header with version 1, both methods `XorEnc`,
arbitrary leading bytes and UTF-8 filename bytes (bounded only by Go's
`int`-sized slice lengths), any `uint32` checksum, and any 4-byte random keys,
`Marshall` succeeds and `UnMarshall` of its output returns a header equal to
the original in all six fields; the parsed header has no key fields, so the
per-field random keys are not replayed to the caller. -/
theorem c5_header_roundtrip (h : NeoHeader) (key1 key2 : List Nat)
    (hv : h.Version = 1) (hm1 : h.OriginalHeaderEncMethod = 1)
    (hm2 : h.OriginalFilenameEncMethod = 1)
    (hk1 : key1.length = 4) (hk2 : key2.length = 4)
    (hcrc : h.Crc32 < 2 ^ 32)
    (hoh : h.OriginalHeader.length < 2 ^ 61)
    (hfn : h.OriginalFilename.length < 2 ^ 61) :
    h.Marshall key1 key2 = .ok (NeoMagicNumber ++
      encodeVUint (marshallBody h key1 key2).length ++ marshallBody h key1 key2) ∧
    NeoHeader.UnMarshall (NeoMagicNumber ++
      encodeVUint (marshallBody h key1 key2).length ++ marshallBody h key1 key2) = .ok h := by
  obtain ⟨v, em1, oh, em2, fn, crc⟩ := h
  have hv' : v = 1 := hv
  have hm1' : em1 = 1 := hm1
  have hm2' : em2 = 1 := hm2
  subst hv'; subst hm1'; subst hm2'
  have hcrc' : crc < 2 ^ 32 := hcrc
  have hoh61 : oh.length < 2 ^ 61 := hoh
  have hfn61 : fn.length < 2 ^ 61 := hfn
  have hoh' : oh.length < 2 ^ 63 := lt_trans hoh61 (by norm_num)
  have hfn' : fn.length < 2 ^ 63 := lt_trans hfn61 (by norm_num)
  have hBc : marshallBody ⟨1, 1, oh, 1, fn, crc⟩ key1 key2
      = 1 :: (writeContentWithXorEnc oh key1 ++
        (writeContentWithXorEnc fn key2 ++ putUint32 crc)) := by
    simp [marshallBody, List.append_assoc]
  have hL63 : (marshallBody ⟨1, 1, oh, 1, fn, crc⟩ key1 key2).length < 2 ^ 63 := by
    rw [hBc]
    have w1 := writeContent_length oh key1 hk1 hoh'
    have w2 := writeContent_length fn key2 hk2 hfn'
    have d1 := Nat.div_le_self oh.length 255
    have d2 := Nat.div_le_self fn.length 255
    simp only [List.length_cons, List.length_append, w1, w2, putUint32_length]
    omega
  constructor
  · simp [NeoHeader.Marshall]
  · rw [hBc] at hL63 ⊢
    exact unmarshall_shape oh fn key1 key2 crc _ hk1 hk2 hcrc' hoh' hfn' hL63 rfl

/-- Claim C5, witness: the round-trip for a header with 2 leading bytes, a
multi-byte UTF-8 filename, and a concrete checksum, with fixed 4-byte keys. -/
theorem c5_header_roundtrip_witness :
    (NeoHeader.mk 1 1 [10, 20] 1 [0xE4, 0xBD, 0xA0] 0xDEADBEEF).Marshall [9, 8, 7, 6] [1, 1, 2, 3]
      = .ok (NeoMagicNumber ++
        encodeVUint (marshallBody ⟨1, 1, [10, 20], 1, [0xE4, 0xBD, 0xA0], 0xDEADBEEF⟩
          [9, 8, 7, 6] [1, 1, 2, 3]).length ++
        marshallBody ⟨1, 1, [10, 20], 1, [0xE4, 0xBD, 0xA0], 0xDEADBEEF⟩
          [9, 8, 7, 6] [1, 1, 2, 3]) ∧
    NeoHeader.UnMarshall (NeoMagicNumber ++
      encodeVUint (marshallBody ⟨1, 1, [10, 20], 1, [0xE4, 0xBD, 0xA0], 0xDEADBEEF⟩
        [9, 8, 7, 6] [1, 1, 2, 3]).length ++
      marshallBody ⟨1, 1, [10, 20], 1, [0xE4, 0xBD, 0xA0], 0xDEADBEEF⟩
        [9, 8, 7, 6] [1, 1, 2, 3])
      = .ok ⟨1, 1, [10, 20], 1, [0xE4, 0xBD, 0xA0], 0xDEADBEEF⟩ :=
  c5_header_roundtrip ⟨1, 1, [10, 20], 1, [0xE4, 0xBD, 0xA0], 0xDEADBEEF⟩
    [9, 8, 7, 6] [1, 1, 2, 3] rfl rfl rfl rfl rfl
    (by norm_num) (by norm_num) (by norm_num)

/-- Claim C6 (amended): on any input longer than 4 bytes whose varint-declared
header length differs from the residual length, `UnMarshall` does not return an
error value — it panics with the message `"len not equal"`. -/
theorem c6_unmarshall_length_mismatch_panics (p : List Nat)
    (h4 : 4 < p.length)
    (hmm : (decodeVUint (p.drop 4)).2.length ≠ (decodeVUint (p.drop 4)).1) :
    NeoHeader.UnMarshall p = .panicked "len not equal" :=
  unMarshall_len_mismatch p h4 hmm

/-- Claim C6, witness: a 6-byte input declaring header length 2 with only 1
residual byte panics. -/
theorem c6_unmarshall_length_mismatch_panics_witness :
    NeoHeader.UnMarshall [0xFF, 0x4E, 0x45, 0x4F, 2, 1] = .panicked "len not equal" :=
  c6_unmarshall_length_mismatch_panics [0xFF, 0x4E, 0x45, 0x4F, 2, 1]
    (by decide) (by decide)

/-- Claim C6, counterexample: on the mismatching input the function does NOT
surface an error return to its caller (no `err` result); it panics instead. -/
theorem c6_no_error_return_cex :
    (NeoHeader.UnMarshall [0xFF, 0x4E, 0x45, 0x4F, 2, 1]).isErr = false
  ∧ NeoHeader.UnMarshall [0xFF, 0x4E, 0x45, 0x4F, 2, 1] = .panicked "len not equal" := by
  decide

/-- Claim C7: parse failures other than a magic mismatch are swallowed — this
theorem evaluates the code at the failing inputs.  A magic-number mismatch does
make `Read` return `ErrNotNEOHeader`; but a version-2 container and an
unknown-method container both make `Read` return 0 bytes with a `nil` error —
the `ErrBadVersion` / `ErrUnknownCryptoMethod` returned by `UnMarshall` is
dropped by `Read`'s `return 0, nil`, a silent zero-byte success. -/
theorem c7_parse_error_swallowed :
    ((NewNeoReader notMagicInput).Read (List.replicate 8 0)).errOf
      = some (some .notNEOHeader)
  ∧ ((NewNeoReader badVersionInput).Read (List.replicate 8 0)).count = some 0
  ∧ ((NewNeoReader badVersionInput).Read (List.replicate 8 0)).errOf = some none
  ∧ ((NewNeoReader badMethodInput).Read (List.replicate 8 0)).count = some 0
  ∧ ((NewNeoReader badMethodInput).Read (List.replicate 8 0)).errOf = some none := by
  decide

/-- Claim C8: the oversized-header path does NOT parse successfully — this
theorem evaluates the code at the failing input.  `c8Container` is well formed
with declared header length 1022, so its header span `4 + 5 + 1022 = 1031`
exceeds the 1024-byte scratch buffer; the reader then allocates its
replacement buffer from the still-zero named return value `n` instead of the
varint byte count `n_` (5 bytes too small), reads 5 fewer header bytes than
declared, and the subsequent parse panics in the length check instead of
succeeding. -/
theorem c8_oversized_header_misallocation :
    (c8Header.Marshall keyA keyB).isOk = true
  ∧ c8Container.length = 1031
  ∧ (decodeVUint (c8Container.drop 4)).1 = 1022
  ∧ (encodeVUint 1022).length = 5
  ∧ (NewNeoReader c8Container).Read (List.replicate 8 0)
      = .panicked "len not equal" := by
  refine ⟨?_, c8Container_length, ?_, ?_, ?_⟩
  · rw [c8Marshall_eq]; rfl
  · rw [show List.drop 4 c8Container
        = encodeVUint 1022 ++ marshallBody c8Header keyA keyB from by
      rw [c8Container_eq, List.append_assoc]
      exact List.drop_left' rfl]
    rw [decodeVUint_encodeVUint_append 1022 (by norm_num)]
  · rw [encodeVUint_length 1022 (by norm_num)]
  · exact c8ReadCore 9 (List.replicate 8 0) (by decide)

/-- Claim C9: for every nonempty key and every byte sequence, applying
`XORKeyStream` twice on freshly constructed `XorStream`s with that key yields
the original sequence. -/
theorem c9_xor_involution (key src : List Nat) (_hk : key ≠ []) :
    ((NewXorStream key).XORKeyStream
      (((NewXorStream key).XORKeyStream src).1)).1 = src :=
  XORKeyStream_involution key src

/-- Claim C9, witness: the involution at key `[3, 7]`, source `[1, 2, 250]`. -/
theorem c9_xor_involution_witness :
    ((NewXorStream [3, 7]).XORKeyStream
      (((NewXorStream [3, 7]).XORKeyStream [1, 2, 250]).1)).1 = [1, 2, 250] :=
  c9_xor_involution [3, 7] [1, 2, 250] (by decide)

/-- Claim C10: `decodeVUint` is total on unterminated input — a slice of `k`
sentinel bytes (including the empty slice) decodes to `255 * k` with an empty
surplus and no error indication of any kind. -/
theorem c10_decodeVUint_total_on_sentinels (k : Nat) :
    decodeVUint (List.replicate k 0xFF) = (0xFF * k, []) := by
  induction k with
  | zero => rfl
  | succ m ih =>
    have hstep : decodeVUint (List.replicate (m + 1) 0xFF)
        = ((decodeVUint (List.replicate m 0xFF)).1 + 0xFF,
           (decodeVUint (List.replicate m 0xFF)).2) := by
      rw [List.replicate_succ]
      simp [decodeVUint]
    rw [hstep, ih]
    simp only [Prod.mk.injEq]
    exact ⟨by ring, trivial⟩

end NEO
